import Mathlib

/-!
Shallow embedding of the `gcd` concurrency/storage substrate
(`src/gcd/work.py`, `src/gcd/store.py`), with theorems settling the
behavioural claims about the Batcher/Streamer workers, the Task loop,
the Transaction context, the connection pool, the vacuumer's
escalation control and the packer/unpacker pair.
-/

namespace Gcd

/-- An element travelling through a worker's bounded channel: either a
payload value or the unique stop sentinel `Task.Stop` from `work.py`. -/
inductive Item (α : Type) where
  | val (a : α)
  | stop
deriving DecidableEq

/-- `x is Task.Stop` — identity test against the sentinel. -/
def isStop : Item α → Bool
  | Item.stop => true
  | _ => false

/-- `batch[-1] is Task.Stop` in `Batcher._callback`: only the *last*
drained element is compared with the sentinel (`[]` never occurs there
because `dequeue(queue, 1)` blocks for at least one item). -/
def lastIsStop (batch : List (Item α)) : Bool :=
  match batch.getLast? with
  | some x => isStop x
  | none => false

/-- One tick of `Batcher._callback` when the channel currently holds `q`
and the drain `list(dequeue(self._queue, 1))` returns `n` elements
(`dequeue` yields one blocking `get` and then non-blocking `get_nowait`s,
so `1 ≤ n ≤ q.length`; FIFO, hence the batch is `q.take n`).
Returns (batch handed to `handle_batch`, whether `Task.Stop` was
returned to the scheduler, remaining channel contents). -/
def batcherCallback (q : List (Item α)) (n : Nat) :
    List (Item α) × Bool × List (Item α) :=
  let batch := q.take n
  let stop := lastIsStop batch
  (if stop then batch.dropLast else batch, stop, q.drop n)

/-- The scheduled loop of a `Batcher` over a fixed channel content `q`,
driven by the sizes of the successive drains: each tick runs
`batcherCallback`; the loop exits when the callback returns the
sentinel.  Returns (batches delivered to the handler, whether the loop
stopped, undrained channel remainder). -/
def batcherRun : List (Item α) → List Nat → List (List (Item α)) × Bool × List (Item α)
  | q, [] => ([], false, q)
  | q, n :: rest =>
    let r := batcherCallback q n
    if r.2.1 then ([r.1], true, r.2.2)
    else
      let rr := batcherRun r.2.2 rest
      (r.1 :: rr.1, rr.2.1, rr.2.2)

/-- A drain schedule is feasible for channel content `q` when every tick
drains at least one element (the blocking `get`), never more than are
queued, and the schedule drains the queue completely (the worker keeps
ticking until the sentinel, so every enqueued element is eventually
drained). -/
def validSched : List (Item α) → List Nat → Bool
  | q, [] => q.isEmpty
  | q, n :: rest =>
    decide (1 ≤ n) && decide (n ≤ q.length) && validSched (q.drop n) rest

/-- Consumer side of a `Streamer` (`__iter__`/`__next__`): repeatedly
`get` from the channel; the sentinel raises `StopIteration` (clean end,
modelled as `some` of the items yielded); an empty channel blocks
forever (`none`). -/
def streamerConsume : List (Item α) → Option (List α)
  | [] => none
  | Item.stop :: _ => some []
  | Item.val a :: rest => (streamerConsume rest).map (a :: ·)

/-- One tick of `Streamer._callback` given the producer's yielded
sequence: every yielded object is `put` into the channel and, as soon as
the yielded object is the sentinel, the callback returns `Task.Stop`
(ending the loop) without consuming the producer further.  Returns the
elements pushed into the channel. -/
def streamerCallback : List (Item α) → List (Item α)
  | [] => []
  | Item.stop :: _ => [Item.stop]
  | x :: rest => x :: streamerCallback rest

theorem lastIsStop_map_val (xs : List α) : lastIsStop (xs.map Item.val) = false := by
  unfold lastIsStop
  rw [List.getLast?_map]
  cases xs.getLast? <;> simp [isStop]

theorem lastIsStop_concat_stop (xs : List (Item α)) :
    lastIsStop (xs ++ [Item.stop]) = true := by
  unfold lastIsStop
  rw [List.getLast?_concat]
  rfl

theorem streamerConsume_append_stop (pre : List α) (post : List (Item α)) :
    streamerConsume (pre.map Item.val ++ Item.stop :: post) = some pre := by
  induction pre with
  | nil => rfl
  | cons a pre ih => simp [streamerConsume, ih]

theorem streamerCallback_append_stop (xs : List α) (tail : List (Item α)) :
    streamerCallback (xs.map Item.val ++ Item.stop :: tail)
      = xs.map Item.val ++ [Item.stop] := by
  induction xs with
  | nil => rfl
  | cons a xs ih => simp [streamerCallback, ih]

/-- C1: if the channel holds `items` followed by the sentinel that
`join()` enqueues, then under every feasible drain schedule the loop
stops (so `join()` returns only after the last delivery), the handler
batches concatenate exactly to `items` (no loss, duplication or
reordering), and nothing is left undrained. -/
theorem batcher_join_delivers_all (items : List α) (sched : List Nat)
    (h : validSched (items.map Item.val ++ [Item.stop]) sched = true) :
    (batcherRun (items.map Item.val ++ [Item.stop]) sched).1.flatten = items.map Item.val
    ∧ (batcherRun (items.map Item.val ++ [Item.stop]) sched).2.1 = true
    ∧ (batcherRun (items.map Item.val ++ [Item.stop]) sched).2.2 = [] := by
  induction sched generalizing items with
  | nil =>
    exfalso
    simp [validSched] at h
  | cons n rest ih =>
    simp only [validSched, Bool.and_eq_true, decide_eq_true_eq] at h
    obtain ⟨⟨h1, hn⟩, hrest⟩ := h
    by_cases hle : n ≤ items.length
    · have htake : (items.map Item.val ++ [Item.stop]).take n = (items.take n).map Item.val := by
        rw [List.take_append_of_le_length (by simpa using hle), List.map_take]
      have hdrop : (items.map Item.val ++ [Item.stop]).drop n
          = (items.drop n).map Item.val ++ [Item.stop] := by
        rw [List.drop_append_of_le_length (by simpa using hle), List.map_drop]
      have hstop : lastIsStop ((items.map Item.val ++ [Item.stop]).take n) = false := by
        rw [htake]; exact lastIsStop_map_val _
      have hrest2 : validSched ((items.drop n).map Item.val ++ [Item.stop]) rest = true := by
        rw [← hdrop]; exact hrest
      have ihh := ih (items.drop n) hrest2
      simp only [batcherRun, batcherCallback, hstop, Bool.false_eq_true, if_false, hdrop]
      constructor
      · rw [List.flatten_cons, htake, ihh.1, ← List.map_append, List.take_append_drop]
      · exact ⟨ihh.2.1, ihh.2.2⟩
    · have hn2 : n = items.length + 1 := by
        simp only [List.length_append, List.length_map, List.length_singleton] at hn
        omega
      have htake : (items.map Item.val ++ [Item.stop]).take n
          = items.map Item.val ++ [Item.stop] := by
        apply List.take_of_length_le
        simp [hn2]
      have hstop : lastIsStop ((items.map Item.val ++ [Item.stop]).take n) = true := by
        rw [htake]; exact lastIsStop_concat_stop _
      have hdrop : (items.map Item.val ++ [Item.stop]).drop n = [] := by
        apply List.drop_of_length_le
        simp [hn2]
      simp [batcherRun, batcherCallback, hstop, htake, hdrop, lastIsStop_concat_stop]

theorem batcher_join_delivers_all_witness :
    validSched ([1, 2, 3].map Item.val ++ [Item.stop]) [2, 2] = true
    ∧ (batcherRun ([1, 2, 3].map Item.val ++ [Item.stop]) [2, 2]).1.flatten
        = [1, 2, 3].map Item.val
    ∧ (batcherRun ([(1:Nat), 2, 3].map Item.val ++ [Item.stop]) [2, 2]).2.1 = true :=
  ⟨by decide,
   (batcher_join_delivers_all [1, 2, 3] [2, 2] (by decide)).1,
   (batcher_join_delivers_all [1, 2, 3] [2, 2] (by decide)).2.1⟩

/-- C3 fails as stated: with the sentinel mid-queue (`[Stop, 7]`) and a
drain of both elements, `batch[-1] is Task.Stop` is false, so the
sentinel is delivered to the handler as payload together with the item
queued behind it, and the loop does not terminate. -/
theorem batcher_midstream_sentinel_counterexample :
    (batcherRun [Item.stop, Item.val (7 : Nat)] [2]).2.1 = false
    ∧ Item.stop ∈ (batcherRun [Item.stop, Item.val (7 : Nat)] [2]).1.flatten
    ∧ Item.val 7 ∈ (batcherRun [Item.stop, Item.val (7 : Nat)] [2]).1.flatten := by
  decide

/-- C3 amended: the Batcher's loop terminates, strips the sentinel and
discards everything still queued behind it exactly when the drained
batch *ends* at the sentinel; and the Streamer's consumer never yields
the sentinel nor anything queued behind it. -/
theorem stop_sentinel_amended (good : List α) (rest : List (Item α))
    (sched : List Nat) (pre : List α) (post : List (Item α)) :
    batcherRun (good.map Item.val ++ Item.stop :: rest) ((good.length + 1) :: sched)
      = ([good.map Item.val], true, rest)
    ∧ streamerConsume (pre.map Item.val ++ Item.stop :: post) = some pre := by
  constructor
  · have hlen : (good.map Item.val ++ [Item.stop]).length = good.length + 1 := by simp
    have htake : (good.map Item.val ++ Item.stop :: rest).take (good.length + 1)
        = good.map Item.val ++ [Item.stop] := by
      rw [show Item.stop :: rest = [Item.stop] ++ rest from rfl, ← List.append_assoc,
        ← hlen, List.take_left]
    have hdrop : (good.map Item.val ++ Item.stop :: rest).drop (good.length + 1) = rest := by
      rw [show Item.stop :: rest = [Item.stop] ++ rest from rfl, ← List.append_assoc,
        ← hlen, List.drop_left]
    simp only [batcherRun, batcherCallback, htake, hdrop, lastIsStop_concat_stop, if_true]
    simp
  · exact streamerConsume_append_stop pre post

/-- The scheduled loop of a `Streamer`: `Task._run` invokes `_callback`
once per tick with the producer's yield for that tick; the callback
returns `Task.Stop` — ending the loop — exactly when the element it just
pushed was the sentinel, i.e. when the pushed sequence ends in the
sentinel.  Returns the channel contents accumulated across ticks. -/
def streamerRun : List (List (Item α)) → List (Item α)
  | [] => []
  | batch :: batches =>
    let pushed := streamerCallback batch
    if lastIsStop pushed then pushed else pushed ++ streamerRun batches

theorem streamerCallback_map_val (vs : List α) :
    streamerCallback (vs.map Item.val) = vs.map Item.val := by
  induction vs with
  | nil => rfl
  | cons v vs ih => simp [streamerCallback, ih]

/-- C8: if the producer yields the pure items `ticks` over the first
scheduling ticks and then `xs` followed by the sentinel (and possibly
more), the worker pushes exactly `ticks.flatten ++ xs` plus the
sentinel, and the consumer's iteration yields exactly those items in
order and then ends cleanly (`StopIteration`, i.e. `some`), never with
an error. -/
theorem streamer_delivery (ticks : List (List α)) (xs : List α) (tail : List (Item α)) :
    streamerConsume (streamerRun
        (ticks.map (List.map Item.val) ++ [xs.map Item.val ++ Item.stop :: tail]))
      = some (ticks.flatten ++ xs) := by
  induction ticks with
  | nil =>
    simp only [List.map_nil, List.nil_append, streamerRun,
      streamerCallback_append_stop, lastIsStop_concat_stop, if_true,
      List.flatten_nil]
    simpa using streamerConsume_append_stop xs []
  | cons t ticks ih =>
    simp only [List.map_cons, List.cons_append, streamerRun,
      streamerCallback_map_val, lastIsStop_map_val, Bool.false_eq_true, if_false]
    rw [List.flatten_cons]
    -- consuming `t.map val ++ (rest of the run)`: peel the pure values off
    induction t with
    | nil => simpa using ih
    | cons a t iht =>
      simp only [List.map_cons, List.cons_append, streamerConsume, List.append_eq] at iht ⊢
      rw [iht]
      simp [List.append_assoc]

/-! ### Task control loop (`work.py`, `Task._run` / `Task.stop`) -/

/-- Outcome of invoking the callback once inside `Task._run`: it either
raises an exception (caught by the `except Exception` clause, which logs
it), returns an ordinary value, or returns the sentinel `Task.Stop`. -/
inductive CbResult where
  | raises
  | ok
  | stop
deriving DecidableEq

/-- One iteration of the `while True` loop in `Task._run`, given the
value of `self.__stop` at wake time (the flag `stop()` sets).  Returns
(whether the loop returns this iteration, whether the callback was
invoked): by short-circuit `or`, a set flag returns before calling the
callback; a callback exception is caught, logged, and the loop
continues; the loop returns exactly when the flag was set or the
callback returned the sentinel. -/
def taskIter (stopFlag : Bool) (cb : CbResult) : Bool × Bool :=
  if stopFlag then (true, false)
  else
    match cb with
    | CbResult.raises => (false, true)
    | CbResult.ok => (false, true)
    | CbResult.stop => (true, true)

/-- C5: the loop terminates iff the stop flag was set at wake or the
callback returned the sentinel; a set flag prevents the callback from
being invoked at all (never interrupting an in-flight one — the flag is
only read between invocations); and an exception from the callback is
caught and the loop continues. -/
theorem task_loop_stop_iff (stopFlag : Bool) (cb : CbResult) :
    ((taskIter stopFlag cb).1 = true ↔ (stopFlag = true ∨ cb = CbResult.stop))
    ∧ (stopFlag = true → (taskIter stopFlag cb).2 = false)
    ∧ (stopFlag = false → cb = CbResult.raises → (taskIter stopFlag cb).1 = false) := by
  cases stopFlag <;> cases cb <;> simp [taskIter]

/-! ### PgConnectionPool (`store.py`) -/

/-- A `PgConnectionPool`: the wrapped psycopg2 `ThreadedConnectionPool`
is summarised by its `minconn` attribute and `used`, the number of
currently checked-out connections (`len(pool._used)`).  `keep_conns` and
`max_conns` are the constructor arguments. -/
structure PgConnectionPool where
  keep_conns : Nat
  max_conns : Nat
  minconn : Nat
  used : Nat
deriving DecidableEq

/-- `ThreadedConnectionPool.getconn` (the pool backend, an external
collaborator honouring the `max` bound): checks out one more connection,
failing (`PoolError`, modelled `none`) when `max_conns` are already
checked out. -/
def getconn (p : PgConnectionPool) : Option PgConnectionPool :=
  if p.used < p.max_conns then some { p with used := p.used + 1 } else none

/-- `PgConnectionPool.acquire`: `conn = pool.getconn()` followed by
`pool.minconn = min(self._keep_conns, len(pool._used))`. -/
def poolAcquire (p : PgConnectionPool) : Option PgConnectionPool :=
  (getconn p).map fun q => { q with minconn := min p.keep_conns q.used }

/-- C7: after every successful `acquire()`, the pool's warm-minimum is
exactly `min(keep_conns, checked-out count)` and never exceeds
`max_conns`. -/
theorem acquire_sets_warm_minimum (p q : PgConnectionPool)
    (h : poolAcquire p = some q) :
    q.minconn = min p.keep_conns q.used ∧ q.minconn ≤ p.max_conns := by
  rw [poolAcquire, getconn] at h
  by_cases hlt : p.used < p.max_conns
  · rw [if_pos hlt, Option.map_some'] at h
    cases h
    refine ⟨rfl, ?_⟩
    exact le_trans (Nat.min_le_right _ _) hlt
  · rw [if_neg hlt] at h
    exact absurd h (by simp)

theorem acquire_sets_warm_minimum_witness :
    poolAcquire (PgConnectionPool.mk 10 10 10 0) = some (PgConnectionPool.mk 10 10 1 1)
    ∧ (PgConnectionPool.mk 10 10 1 1).minconn
        = min (PgConnectionPool.mk 10 10 10 0).keep_conns (PgConnectionPool.mk 10 10 1 1).used
    ∧ (PgConnectionPool.mk 10 10 1 1).minconn ≤ (PgConnectionPool.mk 10 10 10 0).max_conns :=
  ⟨by decide,
   (acquire_sets_warm_minimum (PgConnectionPool.mk 10 10 10 0)
     (PgConnectionPool.mk 10 10 1 1) (by decide)).1,
   (acquire_sets_warm_minimum (PgConnectionPool.mk 10 10 10 0)
     (PgConnectionPool.mk 10 10 1 1) (by decide)).2⟩

/-! ### Transaction (`store.py`) -/

/-- A cursor opened through `Transaction.cursor` and tracked in
`self._cursors`.  `withhold` mirrors the attribute `__exit__` checks to
skip closing; `closeRaises` records whether `cursor.close()` would raise
— such an error is swallowed by the per-cursor `except Exception: pass`
in `__exit__` and changes nothing else. -/
structure Cursor where
  id : Nat
  withhold : Bool
  closeRaises : Bool
deriving DecidableEq

/-- A `Transaction` object as built by `__init__`: `pooled` is true when
`conn_or_pool` had no `cursor` attribute, i.e. `self._pool` was set and
`__enter__`/`__exit__` acquire and release a pooled connection. -/
structure TxObj where
  id : Nat
  pooled : Bool
deriving DecidableEq

/-- The per-thread state: `Transaction._local.active` (the id of the
owning context, if any) together with the owner's tracked cursor list
`active._cursors` (reset to `[]` when a new owner enters; meaningless
when there is no owner). -/
structure TState where
  active : Option Nat
  activeCursors : List Cursor
deriving DecidableEq

/-- Observable side effects of `__enter__`/`__exit__` on the connection
and the pool.  `rollbackLogged` stands for
`logger.error('Transaction rollback', ...)` followed by
`self._conn.rollback()`. -/
inductive Effect where
  | acquire
  | closeCursor (c : Nat)
  | commit
  | rollbackLogged
  | release
deriving DecidableEq

/-- `Transaction.__enter__`: if the thread already has an active
context, return it unchanged (no acquisition, no state change);
otherwise acquire a connection from the pool when pooled, reset the
cursor list and mark this object as the thread's active context.
Returns (id of the object the `with` statement binds, new thread state,
effects). -/
def txEnter (s : TState) (self : TxObj) : Nat × TState × List Effect :=
  match s.active with
  | some aid => (aid, s, [])
  | none =>
    (self.id, { active := some self.id, activeCursors := [] },
      if self.pooled then [Effect.acquire] else [])

/-- `Transaction.cursor`: opens a cursor on the owning connection and
appends it to `self._cursors`. -/
def txCursor (s : TState) (c : Cursor) : TState :=
  { s with activeCursors := s.activeCursors ++ [c] }

/-- What a call to `Transaction.__exit__` produces. -/
structure ExitResult where
  state : TState
  effects : List Effect
  /-- the truthiness of the value `__exit__` returns; it always returns
  `None`, so an in-flight exception is never suppressed -/
  suppressed : Bool
  /-- whether `__exit__` itself raises (the commit/rollback failing) -/
  raised : Bool
deriving DecidableEq

/-- `Transaction.__exit__(type_, value, traceback)`.  `err` is true when
an exception is in flight (`type_ is not None`); `commitFails` whether
the `commit()`/`rollback()` call itself raises.  A context that is not
the thread's active one returns immediately, with no effect at all.
The owning context closes every tracked cursor not marked `withhold`
(per-cursor close errors swallowed by `except Exception: pass`), then
commits on clean exit or logs the error and rolls back, and in the
`finally` block always clears the thread marker and releases a pooled
connection — even when commit or rollback raised. -/
def txExit (s : TState) (self : TxObj) (err : Bool) (commitFails : Bool) : ExitResult :=
  if s.active = some self.id then
    { state := { active := none, activeCursors := [] },
      effects :=
        (s.activeCursors.filterMap fun c =>
          if c.withhold then none else some (Effect.closeCursor c.id))
        ++ (if err then [Effect.rollbackLogged] else [Effect.commit])
        ++ (if self.pooled then [Effect.release] else []),
      suppressed := false,
      raised := commitFails }
  else
    { state := s, effects := [], suppressed := false, raised := false }

theorem mem_close_effects (cs : List Cursor) (e : Effect)
    (he : e ∈ cs.filterMap fun c =>
      if c.withhold then none else some (Effect.closeCursor c.id)) :
    ∃ n, e = Effect.closeCursor n := by
  simp only [List.mem_filterMap] at he
  obtain ⟨c, _, hfc⟩ := he
  by_cases hw : c.withhold
  · rw [if_pos hw] at hfc
    exact absurd hfc (by simp)
  · rw [if_neg hw] at hfc
    exact ⟨c.id, (Option.some_inj.mp hfc).symm⟩

/-- C2: entering while the thread already has an active context returns
that context with no new acquisition and no state change; `__exit__` on
a context that is not the owner commits nothing, rolls back nothing,
closes nothing and releases nothing (it leaves the state untouched);
only the owning context's exit performs the commit-or-rollback and the
release. -/
theorem transaction_reentrant (s : TState) (self : TxObj) (aid : Nat)
    (err commitFails : Bool) (hact : s.active = some aid) :
    txEnter s self = (aid, s, [])
    ∧ (aid ≠ self.id → txExit s self err commitFails
        = { state := s, effects := [], suppressed := false, raised := false })
    ∧ (aid = self.id →
        ((if err then Effect.rollbackLogged else Effect.commit)
            ∈ (txExit s self err commitFails).effects
          ∧ (self.pooled = true →
              Effect.release ∈ (txExit s self err commitFails).effects))) := by
  refine ⟨by simp [txEnter, hact], ?_, ?_⟩
  · intro hne
    rw [txExit, if_neg]
    rw [hact]
    simp [hne]
  · intro heq
    subst heq
    rw [txExit, if_pos hact]
    cases err <;> simp

theorem transaction_reentrant_witness :
    (TState.mk (some 1) []).active = some 1
    ∧ txEnter (TState.mk (some 1) []) (TxObj.mk 2 true) = (1, TState.mk (some 1) [], [])
    ∧ txExit (TState.mk (some 1) []) (TxObj.mk 2 true) false false
        = ExitResult.mk (TState.mk (some 1) []) [] false false :=
  ⟨rfl,
   (transaction_reentrant (TState.mk (some 1) []) (TxObj.mk 2 true) 1 false false rfl).1,
   (transaction_reentrant (TState.mk (some 1) []) (TxObj.mk 2 true) 1 false false rfl).2.1
     (by decide)⟩

/-- C4: the owning exit with an exception in flight rolls back (and logs
— the `rollbackLogged` effect) instead of committing, and never returns
a truthy value, so the exception propagates; without an exception it
commits and never rolls back. -/
theorem transaction_rollback_on_error (s : TState) (self : TxObj) (commitFails : Bool)
    (hown : s.active = some self.id) :
    Effect.rollbackLogged ∈ (txExit s self true commitFails).effects
    ∧ Effect.commit ∉ (txExit s self true commitFails).effects
    ∧ (txExit s self true commitFails).suppressed = false
    ∧ Effect.commit ∈ (txExit s self false commitFails).effects
    ∧ Effect.rollbackLogged ∉ (txExit s self false commitFails).effects
    ∧ (txExit s self false commitFails).suppressed = false := by
  rw [txExit, txExit, if_pos hown, if_pos hown]
  refine ⟨by simp, ?_, rfl, by simp, ?_, rfl⟩
  · intro hmem
    simp only [List.mem_append] at hmem
    rcases hmem with (hmem | hmem) | hmem
    · obtain ⟨n, hn⟩ := mem_close_effects _ _ hmem
      simp at hn
    · simp at hmem
    · cases hp : self.pooled <;> rw [hp] at hmem <;> simp at hmem
  · intro hmem
    simp only [List.mem_append] at hmem
    rcases hmem with (hmem | hmem) | hmem
    · obtain ⟨n, hn⟩ := mem_close_effects _ _ hmem
      simp at hn
    · simp at hmem
    · cases hp : self.pooled <;> rw [hp] at hmem <;> simp at hmem

theorem transaction_rollback_on_error_witness :
    (TState.mk (some 3) [Cursor.mk 0 false false]).active = some (TxObj.mk 3 true).id
    ∧ Effect.rollbackLogged
        ∈ (txExit (TState.mk (some 3) [Cursor.mk 0 false false]) (TxObj.mk 3 true)
            true false).effects
    ∧ Effect.commit
        ∈ (txExit (TState.mk (some 3) [Cursor.mk 0 false false]) (TxObj.mk 3 true)
            false false).effects :=
  ⟨rfl,
   (transaction_rollback_on_error (TState.mk (some 3) [Cursor.mk 0 false false])
     (TxObj.mk 3 true) false rfl).1,
   (transaction_rollback_on_error (TState.mk (some 3) [Cursor.mk 0 false false])
     (TxObj.mk 3 true) false rfl).2.2.2.1⟩

/-- C9: the owning exit of a pool-backed context always clears the
thread's active marker and releases the connection back to the pool —
for any tracked cursors (including ones whose `close()` raises, which is
swallowed), whether or not an exception is in flight, and even when the
commit or rollback itself raises: the cleanup is in a `finally`
block. -/
theorem transaction_exit_always_cleans (s : TState) (self : TxObj)
    (err commitFails : Bool)
    (hown : s.active = some self.id) (hpool : self.pooled = true) :
    (txExit s self err commitFails).state.active = none
    ∧ Effect.release ∈ (txExit s self err commitFails).effects := by
  rw [txExit, if_pos hown]
  exact ⟨rfl, by simp [hpool]⟩

theorem transaction_exit_always_cleans_witness :
    (TState.mk (some 4) [Cursor.mk 0 false true, Cursor.mk 1 true false]).active
        = some (TxObj.mk 4 true).id
    ∧ (TxObj.mk 4 true).pooled = true
    ∧ (txExit (TState.mk (some 4) [Cursor.mk 0 false true, Cursor.mk 1 true false])
        (TxObj.mk 4 true) true true).state.active = none
    ∧ Effect.release
        ∈ (txExit (TState.mk (some 4) [Cursor.mk 0 false true, Cursor.mk 1 true false])
            (TxObj.mk 4 true) true true).effects :=
  ⟨rfl, rfl,
   (transaction_exit_always_cleans
     (TState.mk (some 4) [Cursor.mk 0 false true, Cursor.mk 1 true false])
     (TxObj.mk 4 true) true true rfl rfl).1,
   (transaction_exit_always_cleans
     (TState.mk (some 4) [Cursor.mk 0 false true, Cursor.mk 1 true false])
     (TxObj.mk 4 true) true true rfl rfl).2⟩

/-! ### PgVacuumer escalation (`store.py`, `PgVacuumer._size`) -/

/-- Python truthiness of `self._full_size and size > self._full_size`:
an unset (`None`) or zero `full_size` keeps escalation off. -/
def tooBig (full_size : Option ℚ) (size : ℚ) : Bool :=
  match full_size with
  | none => false
  | some fs => if fs = 0 then false else decide (fs < size)

/-- One run of `PgVacuumer._size` with wall-clock time explicit: `now`
is the `time.time()` read when the size was found too big, `dur` the
duration of the full vacuum, so the `time.time()` read afterwards is
`now + dur` and the reassignment is
`_full_next = now + ((now + dur) - now) / full_rate`.  The state is the
`_full_next` timestamp.  Returns (new `_full_next`, whether a full
vacuum pass ran). -/
def sizeCheck (full_size : Option ℚ) (full_rate : ℚ) (full_next : ℚ)
    (now size dur : ℚ) : ℚ × Bool :=
  if tooBig full_size size then
    if full_next < now then (now + (now + dur - now) / full_rate, true)
    else (full_next, false)
  else (full_next, false)

/-- C6: with `full_size` configured (truthy), a measured size over the
threshold at a time past `_full_next` runs a full pass immediately and
sets `_full_next` to `now + dur / full_rate` where `dur` is the full
pass's run duration; consequently a later size check at any time
`t ≤ now + dur / full_rate` runs no full pass, whatever size it
measures. -/
theorem vacuum_escalation_rate_limited (fs full_rate full_next now size dur : ℚ)
    (hfs : 0 < fs) (hbig : fs < size) (hdue : full_next < now) :
    (sizeCheck (some fs) full_rate full_next now size dur).2 = true
    ∧ (sizeCheck (some fs) full_rate full_next now size dur).1 = now + dur / full_rate
    ∧ ∀ t size2 dur2, t ≤ now + dur / full_rate →
        (sizeCheck (some fs) full_rate (now + dur / full_rate) t size2 dur2).2
          = false := by
  have htb : tooBig (some fs) size = true := by
    simp only [tooBig, if_neg (ne_of_gt hfs)]
    exact decide_eq_true hbig
  refine ⟨?_, ?_, ?_⟩
  · simp [sizeCheck, htb, hdue]
  · simp [sizeCheck, htb, hdue]
  · intro t size2 dur2 ht
    have hnot : ¬ (now + dur / full_rate < t) := not_lt.mpr ht
    unfold sizeCheck
    cases tooBig (some fs) size2 <;> simp [hnot]

theorem vacuum_escalation_rate_limited_witness :
    (0 : ℚ) < 1000 ∧ (1000 : ℚ) < 1500 ∧ (0 : ℚ) < 5
    ∧ (sizeCheck (some 1000) (1 / 10) 0 5 1500 2).2 = true
    ∧ (sizeCheck (some 1000) (1 / 10) 0 5 1500 2).1 = 5 + 2 / (1 / 10)
    ∧ (sizeCheck (some 1000) (1 / 10) (5 + 2 / (1 / 10)) 25 2000 3).2 = false :=
  ⟨by norm_num, by norm_num, by norm_num,
   (vacuum_escalation_rate_limited 1000 (1 / 10) 0 5 1500 2
     (by norm_num) (by norm_num) (by norm_num)).1,
   (vacuum_escalation_rate_limited 1000 (1 / 10) 0 5 1500 2
     (by norm_num) (by norm_num) (by norm_num)).2.1,
   (vacuum_escalation_rate_limited 1000 (1 / 10) 0 5 1500 2
     (by norm_num) (by norm_num) (by norm_num)).2.2 25 2000 3 (by norm_num)⟩

/-! ### packer / unpacker (`work.py`) -/

/-- One call of the closure returned by `packer(put, size)`: the new
objects are appended to the buffer (`pack.extend(obj)`); when `flush`
was passed or the buffer reached `size`, the buffer is passed to `put`
and cleared.  Returns (new buffer, packs passed to `put` by this
call). -/
def packerCall (size : Nat) (pack objs : List α) (flush : Bool) :
    List α × List (List α) :=
  let pack2 := pack ++ objs
  if flush || decide (size ≤ pack2.length) then ([], [pack2]) else (pack2, [])

/-- A sequence of calls of the packer closure starting from buffer
`pack` (`[]` right after `packer(put, size)`): returns (final buffer,
all the packs passed to `put`, in order). -/
def packerRun (size : Nat) : List α → List (List α × Bool) → List α × List (List α)
  | pack, [] => (pack, [])
  | pack, (objs, flush) :: calls =>
    let r := packerCall size pack objs flush
    let rr := packerRun size r.1 calls
    (rr.1, r.2 ++ rr.2)

/-- One call of the closure returned by `unpacker(get)`: when the buffer
is empty (`None` initially, or exhausted) it fetches the next pack with
`get()`, then returns `pack.pop(0)`.  `none` models the failure modes:
`get()` blocking forever when no pack is left, and `pop(0)` raising
`IndexError` when the fetched pack is empty. -/
def unpackerCall : List α → List (List α) → Option (α × List α × List (List α))
  | [], [] => none
  | [], [] :: _ => none
  | [], (a :: rest) :: ps => some (a, rest, ps)
  | a :: rest, ps => some (a, rest, ps)

/-- `n` successive calls of the unpacker closure reading from the packs
`packs`: `some` of the objects returned, in order, or `none` when a call
failed. -/
def unpackerRun : Nat → List α → List (List α) → Option (List α)
  | 0, _, _ => some []
  | n + 1, pack, packs =>
    match unpackerCall pack packs with
    | none => none
    | some (a, pack2, packs2) => (unpackerRun n pack2 packs2).map (a :: ·)

theorem packerRun_flatten (size : Nat) (calls : List (List α × Bool)) :
    ∀ pack : List α,
      (packerRun size pack calls).2.flatten ++ (packerRun size pack calls).1
        = pack ++ (calls.map Prod.fst).flatten := by
  induction calls with
  | nil => intro pack; simp [packerRun]
  | cons c calls ih =>
    intro pack
    obtain ⟨objs, flush⟩ := c
    by_cases hf : (flush || decide (size ≤ (pack ++ objs).length)) = true
    · simp only [packerRun, packerCall, hf, if_true]
      rw [List.flatten_append, List.flatten_cons, List.flatten_nil, List.append_nil,
        List.append_assoc, ih [], List.nil_append, List.map_cons, List.flatten_cons,
        List.append_assoc]
    · rw [Bool.not_eq_true] at hf
      simp only [packerRun, packerCall, hf, Bool.false_eq_true, if_false]
      rw [List.nil_append, ih (pack ++ objs), List.map_cons, List.flatten_cons,
        List.append_assoc]

theorem packerRun_final_flush (size : Nat) (calls : List (List α × Bool)) (objs : List α) :
    ∀ pack : List α, (packerRun size pack (calls ++ [(objs, true)])).1 = [] := by
  induction calls with
  | nil =>
    intro pack
    simp [packerRun, packerCall]
  | cons c calls ih =>
    intro pack
    obtain ⟨objs2, flush2⟩ := c
    simp only [List.cons_append, packerRun]
    exact ih _

theorem unpackerRun_cons (n : Nat) (a : α) (rest : List α) (packs : List (List α)) :
    unpackerRun (n + 1) (a :: rest) packs
      = (unpackerRun n rest packs).map (a :: ·) := rfl

theorem unpackerRun_refill (n : Nat) (b : α) (brest : List α) (ps : List (List α)) :
    unpackerRun (n + 1) [] ((b :: brest) :: ps)
      = (unpackerRun n brest ps).map (b :: ·) := rfl

theorem unpackerRun_reads_all (packs : List (List α)) (hne : ([] : List α) ∉ packs) :
    ∀ pack : List α,
      unpackerRun (pack.length + packs.flatten.length) pack packs
        = some (pack ++ packs.flatten) := by
  induction packs with
  | nil =>
    intro pack
    induction pack with
    | nil => rfl
    | cons a rest ih =>
      have hlen : (a :: rest).length + (List.flatten ([] : List (List α))).length
          = (rest.length + (List.flatten ([] : List (List α))).length) + 1 := by
        simp
      rw [hlen, unpackerRun_cons, ih]
      simp
  | cons p ps ih =>
    have hp : p ≠ [] := fun h => hne (h ▸ List.mem_cons_self p ps)
    have hps : ([] : List α) ∉ ps := fun h => hne (List.mem_cons_of_mem p h)
    intro pack
    induction pack with
    | nil =>
      obtain ⟨b, brest, rfl⟩ : ∃ b brest, p = b :: brest := by
        cases p with
        | nil => exact absurd rfl hp
        | cons b brest => exact ⟨b, brest, rfl⟩
      have hlen : ([] : List α).length + ((b :: brest) :: ps).flatten.length
          = (brest.length + ps.flatten.length) + 1 := by
        simp only [List.length_nil, List.flatten_cons, List.length_cons,
          List.length_append, Nat.zero_add]
        omega
      rw [hlen, unpackerRun_refill, ih hps brest]
      simp
    | cons a rest ihrest =>
      have hlen : (a :: rest).length + ((p :: ps).flatten).length
          = (rest.length + ((p :: ps).flatten).length) + 1 := by
        simp only [List.length_cons]
        omega
      rw [hlen, unpackerRun_cons, ihrest]
      simp

/-- C10 fails as stated: the packer calls `f(flush=True)` (no objects,
empty buffer) then `f(5, flush=True)` pass the packs `[]` and `[5]` to
`put` — their concatenation is still the input sequence `[5]` — but the
first unpacker read fetches the empty pack and `[].pop(0)` raises
`IndexError` instead of ever returning `5`. -/
theorem packer_empty_pack_counterexample :
    (packerRun 2 ([] : List Nat) [([], true), ([5], true)]).2 = [[], [5]]
    ∧ unpackerRun 1 ([] : List Nat) [[], [5]] = none := by
  constructor
  · rfl
  · rfl

/-- C10 amended: for every sequence of packer calls whose final call
passes `flush=True`, the concatenation of the packs passed to `put`
equals the concatenation of the objects written, in order; and provided
every pack passed to `put` is nonempty (no call flushed an empty
buffer), reading them back through `unpacker(get)` returns exactly the
original objects in the original order. -/
theorem packer_unpacker_roundtrip (size : Nat) (calls : List (List α × Bool))
    (objs : List α)
    (hne : ([] : List α) ∉ (packerRun size [] (calls ++ [(objs, true)])).2) :
    (packerRun size [] (calls ++ [(objs, true)])).2.flatten
        = (calls.map Prod.fst).flatten ++ objs
    ∧ unpackerRun ((calls.map Prod.fst).flatten ++ objs).length []
        (packerRun size [] (calls ++ [(objs, true)])).2
      = some ((calls.map Prod.fst).flatten ++ objs) := by
  have h1 := packerRun_flatten size (calls ++ [(objs, true)]) []
  rw [packerRun_final_flush size calls objs [], List.append_nil, List.nil_append,
    List.map_append, List.flatten_append] at h1
  simp only [List.map_cons, List.map_nil, List.flatten_cons, List.flatten_nil,
    List.append_nil] at h1
  refine ⟨h1, ?_⟩
  have h2 := unpackerRun_reads_all (packerRun size [] (calls ++ [(objs, true)])).2 hne []
  rw [h1] at h2
  simpa using h2

theorem packer_unpacker_roundtrip_witness :
    (([] : List Nat) ∉ (packerRun 2 [] ([([1, 2, 3], false)] ++ [([4], true)])).2)
    ∧ (packerRun 2 ([] : List Nat) ([([1, 2, 3], false)] ++ [([4], true)])).2.flatten
        = [1, 2, 3, 4]
    ∧ unpackerRun 4 ([] : List Nat)
        (packerRun 2 [] ([([1, 2, 3], false)] ++ [([4], true)])).2
      = some [1, 2, 3, 4] :=
  ⟨by decide,
   by
    have h := (packer_unpacker_roundtrip 2 [([1, 2, 3], false)] [4] (by decide)).1
    simpa using h,
   by
    have h := (packer_unpacker_roundtrip 2 [([1, 2, 3], false)] [4] (by decide)).2
    simpa using h⟩

end Gcd
